import Mathlib

/-!
The drawing primitives (`backend/gtk/cairoops`) and the render-capture helpers
(`backend/gtk/testingops`) of the GTK backend of cute.

A shallow embedding of `cairoops.go` and `testingops.go`.

Strings.

A Go string is a byte sequence.  `colorRGBA` first applies `strings.ToLower`,
which reads its argument rune by rune (the decoding of a `range` loop, where a
byte that is not part of a well-formed UTF-8 sequence reads as U+FFFD) and
writes the lower case of every rune read.  `colorRGBA` therefore depends on
its argument only through that rune sequence, and every sequence of Unicode
scalar values is the rune sequence of some Go string.  The argument of
`colorRGBA` is modelled as that rune sequence, a `List Char`; from the
normalised text on, the code indexes and slices bytes, and the model works on
the UTF-8 bytes (`List Nat`).

Numbers.

`float64` colour channels are the quotients `float64(n) / 255.0` and the
literals `0` and `1`; a channel is modelled by the rational number `n / 255`
that the quotient rounds.  `float64` geometry is only compared with zero and
handed on to cairo; it is modelled by `Float64` below, which keeps NaN and the
infinities.  `uintptr` handles are natural numbers, `0` being the null handle.

Backend calls.

The functions bound to `libcairo` by `init` are modelled by the record of the
calls made: a drawing command returns the list of `CairoCall`s it issues, in
order.  The functions bound to `libgtk-4` and `libgobject-2.0` are recorded in
the same way (`GtkCall`); the value the library returns from a call is a
parameter of the model.
-/

namespace Cairoops

/-! ## Go standard library -/

/-- Go's `unicode.IsSpace`: the Latin-1 cases of the function and, above
Latin-1, the `White_Space` range table. -/
def IsSpace (c : Char) : Bool :=
  let r := c.toNat
  if r ≤ 0xFF then
    r == 0x09 || r == 0x0A || r == 0x0B || r == 0x0C || r == 0x0D || r == 0x20
      || r == 0x85 || r == 0xA0
  else
    r == 0x1680 || (0x2000 ≤ r && r ≤ 0x200A) || r == 0x2028 || r == 0x2029
      || r == 0x202F || r == 0x205F || r == 0x3000

/-- Go's `unicode.ToLower`.  For `r <= MaxASCII` the function computes the
result itself; above, it looks the rune up in `unicode.CaseRanges`.  That
table is data of the Go library: it is the parameter `caseTable`, so that
what is proved holds whatever the table contains. -/
def unicodeToLower (caseTable : Char → Char) (c : Char) : Char :=
  if c.toNat ≤ 0x7F then
    if 0x41 ≤ c.toNat ∧ c.toNat ≤ 0x5A then Char.ofNat (c.toNat + (0x61 - 0x41)) else c
  else caseTable c

/-- Go's `strings.ToLower`, on the rune sequence of its argument: every rune
is replaced by its lower case (the ASCII fast path of the function does the
same, byte by byte). -/
def ToLower (caseTable : Char → Char) (s : List Char) : List Char :=
  s.map (unicodeToLower caseTable)

/-- Go's `strings.TrimLeftFunc(s, unicode.IsSpace)`. -/
def TrimLeftSpace (s : List Char) : List Char :=
  s.dropWhile IsSpace

/-- Go's `strings.TrimRightFunc(s, unicode.IsSpace)`. -/
def TrimRightSpace (s : List Char) : List Char :=
  (s.reverse.dropWhile IsSpace).reverse

/-- Go's `strings.TrimSpace` on well-formed UTF-8 (what `strings.ToLower`
returns): leading, then trailing white-space runes are removed. -/
def TrimSpace (s : List Char) : List Char :=
  TrimRightSpace (TrimLeftSpace s)

/-- Go's `utf8.EncodeRune`: the UTF-8 bytes of one rune. -/
def encodeRune (c : Char) : List Nat :=
  let r := c.toNat
  if r ≤ 0x7F then [r]
  else if r ≤ 0x7FF then [0xC0 + r / 64, 0x80 + r % 64]
  else if r ≤ 0xFFFF then [0xE0 + r / 4096, 0x80 + r / 64 % 64, 0x80 + r % 64]
  else [0xF0 + r / 262144, 0x80 + r / 4096 % 64, 0x80 + r / 64 % 64, 0x80 + r % 64]

/-- The bytes of a Go string, given its runes. -/
def utf8 (s : List Char) : List Nat :=
  s.flatMap encodeRune

/-- Go's conversion `string(b)` of a byte `b`: the UTF-8 bytes of the rune
whose code point is `b`. -/
def byteToString (b : Nat) : List Nat :=
  if b ≤ 0x7F then [b] else [0xC0 + b / 64, 0x80 + b % 64]

/-- Go's `strings.HasPrefix`. -/
def HasPrefix (s pre : List Nat) : Bool :=
  pre.length ≤ s.length && s.take pre.length == pre

/-- Go's `strings.Repeat`. -/
def Repeat (s : List Nat) (count : Nat) : List Nat :=
  (List.replicate count s).flatten

/-- Go's slice expression `s[i:j]` on the bytes of a string. -/
def slice (s : List Nat) (i j : Nat) : List Nat :=
  (s.drop i).take (j - i)

/-- The helper `lower` of `strconv`: `c | ('x' - 'X')`. -/
def lowerByte (c : Nat) : Nat :=
  c ||| (0x78 - 0x58)

/-- The `switch` on a byte `c` in the loop of `strconv.ParseUint` (no
underscores: the base is explicit): the value of the digit, `none` where the
function returns a syntax error. -/
def digitValue (c : Nat) : Option Nat :=
  if 0x30 ≤ c ∧ c ≤ 0x39 then some (c - 0x30)
  else if 0x61 ≤ lowerByte c ∧ lowerByte c ≤ 0x7A then some (lowerByte c - 0x61 + 10)
  else none

/-- The digit loop of `strconv.ParseUint`: `n` is the value read so far;
`none` is a syntax or range error. -/
def ParseUint.loop (base cutoff maxVal : Nat) : List Nat → Nat → Option Nat
  | [], n => some n
  | c :: rest, n =>
    match digitValue c with
    | none => none
    | some d =>
      if d ≥ base then none
      else if n ≥ cutoff then none
      else if n * base + d > maxVal then none
      else ParseUint.loop base cutoff maxVal rest (n * base + d)

/-- Go's `strconv.ParseUint(s, base, bitSize)` for `2 <= base <= 36` and
`1 <= bitSize <= 64` (the call site passes 16 and 8): `some n` for a `nil`
error, `none` for any error. -/
def ParseUint (s : List Nat) (base bitSize : Nat) : Option Nat :=
  if s = [] then none
  else ParseUint.loop base ((2 ^ 64 - 1) / base + 1) (2 ^ bitSize - 1) s 0

/-! ## cairoops.go -/

/-- The Go function `parseHexByte`. -/
def parseHexByte (v : List Nat) : ℚ × Bool :=
  match ParseUint v 16 8 with
  | none => (0, false)
  | some n => ((n : ℚ) / 255, true)

/-- The text `colorRGBA` works on: `strings.TrimSpace(strings.ToLower(color))`. -/
def normalize (caseTable : Char → Char) (color : List Char) : List Char :=
  TrimSpace (ToLower caseTable color)

/-- The second `switch` of `colorRGBA` and the final `return`: the named
colours and the default. -/
def namedColor (s : List Nat) : ℚ × ℚ × ℚ × ℚ :=
  if s = utf8 "white".toList then (1, 1, 1, 1)
  else if s = utf8 "red".toList then (1, 0, 0, 1)
  else if s = utf8 "green".toList then (0, 1, 0, 1)
  else if s = utf8 "blue".toList then (0, 0, 1, 1)
  else (0, 0, 0, 1)

/-- The Go function `colorRGBA`.  A `case` of the first `switch` whose `if`
fails leaves the `switch`, and control reaches the named colours. -/
def colorRGBA (caseTable : Char → Char) (color : List Char) : ℚ × ℚ × ℚ × ℚ :=
  let s := utf8 (normalize caseTable color)
  if HasPrefix s (utf8 "#".toList) then
    let hex := s.drop 1
    if hex.length = 3 then
      let (r, rok) := parseHexByte (Repeat (byteToString (hex.getD 0 0)) 2)
      let (g, gok) := parseHexByte (Repeat (byteToString (hex.getD 1 0)) 2)
      let (b, bok) := parseHexByte (Repeat (byteToString (hex.getD 2 0)) 2)
      if rok && gok && bok then (r, g, b, 1) else namedColor s
    else if hex.length = 6 then
      let (r, rok) := parseHexByte (slice hex 0 2)
      let (g, gok) := parseHexByte (slice hex 2 4)
      let (b, bok) := parseHexByte (slice hex 4 6)
      if rok && gok && bok then (r, g, b, 1) else namedColor s
    else if hex.length = 8 then
      let (r, rok) := parseHexByte (slice hex 0 2)
      let (g, gok) := parseHexByte (slice hex 2 4)
      let (b, bok) := parseHexByte (slice hex 4 6)
      let (a, aok) := parseHexByte (slice hex 6 8)
      if rok && gok && bok && aok then (r, g, b, a) else namedColor s
    else namedColor s
  else namedColor s

/-- A `float64` argument of a drawing command.  Finite values are given by the
number they denote (so `-0` is `0`). -/
inductive Float64
  | nan
  | negInf
  | finite (q : ℚ)
  | posInf
  deriving DecidableEq

/-- The float `0`. -/
def Float64.zero : Float64 := Float64.finite 0

/-- Go's `x <= y` on `float64`: false when an operand is NaN. -/
def Float64.le : Float64 → Float64 → Bool
  | Float64.nan, _ => false
  | _, Float64.nan => false
  | Float64.negInf, _ => true
  | _, Float64.posInf => true
  | Float64.finite p, Float64.finite q => decide (p ≤ q)
  | Float64.finite _, Float64.negInf => false
  | Float64.posInf, _ => false

/-- Go's `x > y` on `float64`: false when an operand is NaN. -/
def Float64.gt : Float64 → Float64 → Bool
  | Float64.nan, _ => false
  | _, Float64.nan => false
  | Float64.posInf, Float64.posInf => false
  | Float64.posInf, _ => true
  | Float64.negInf, _ => false
  | Float64.finite p, Float64.finite q => decide (p > q)
  | Float64.finite _, Float64.negInf => true
  | Float64.finite _, Float64.posInf => false

/-- One call of a function bound to `libcairo`, with its arguments (a `string`
argument is given by its bytes). -/
inductive CairoCall
  | setSourceRGBA (ctx : Nat) (r g b a : ℚ)
  | rectangle (ctx : Nat) (x y w h : Float64)
  | fill (ctx : Nat)
  | moveTo (ctx : Nat) (x y : Float64)
  | lineTo (ctx : Nat) (x y : Float64)
  | setLineWidth (ctx : Nat) (w : Float64)
  | stroke (ctx : Nat)
  | selectFontFace (ctx : Nat) (family : List Nat) (slant weight : Int)
  | setFontSize (ctx : Nat) (size : Float64)
  | showText (ctx : Nat) (text : List Nat)
  deriving DecidableEq

/-- The Go function `Fill`: the cairo calls it makes, in order. -/
def Fill (caseTable : Char → Char) (ctx : Nat) (width height : Float64)
    (color : List Char) : List CairoCall :=
  if ctx = 0 ∨ width.le Float64.zero = true ∨ height.le Float64.zero = true then []
  else
    let (r, g, b, a) := colorRGBA caseTable color
    [CairoCall.setSourceRGBA ctx r g b a,
     CairoCall.rectangle ctx Float64.zero Float64.zero width height,
     CairoCall.fill ctx]

/-- The Go function `Rect`: the cairo calls it makes, in order. -/
def Rect (caseTable : Char → Char) (ctx : Nat) (x y w h : Float64)
    (color : List Char) : List CairoCall :=
  if ctx = 0 ∨ w.le Float64.zero = true ∨ h.le Float64.zero = true then []
  else
    let (r, g, b, a) := colorRGBA caseTable color
    [CairoCall.setSourceRGBA ctx r g b a,
     CairoCall.rectangle ctx x y w h,
     CairoCall.fill ctx]

/-- The Go function `Line`: the cairo calls it makes, in order. -/
def Line (caseTable : Char → Char) (ctx : Nat) (x1 y1 x2 y2 : Float64)
    (color : List Char) : List CairoCall :=
  if ctx = 0 then []
  else
    let (r, g, b, a) := colorRGBA caseTable color
    [CairoCall.setSourceRGBA ctx r g b a,
     CairoCall.setLineWidth ctx (Float64.finite 1),
     CairoCall.moveTo ctx x1 y1,
     CairoCall.lineTo ctx x2 y2,
     CairoCall.stroke ctx]

/-- The Go function `Text`: the cairo calls it makes, in order. -/
def Text (caseTable : Char → Char) (ctx : Nat) (x y : Float64) (value : List Nat)
    (color : List Char) : List CairoCall :=
  if ctx = 0 then []
  else
    let (r, g, b, a) := colorRGBA caseTable color
    [CairoCall.setSourceRGBA ctx r g b a,
     CairoCall.selectFontFace ctx (utf8 "Sans".toList) 0 0,
     CairoCall.setFontSize ctx (Float64.finite 13),
     CairoCall.moveTo ctx x y,
     CairoCall.showText ctx value]

/-! ## The words of the specification -/

/-- A hexadecimal digit: `0`-`9`, `a`-`f`, `A`-`F`. -/
def isHexDigit (c : Char) : Bool :=
  (0x30 ≤ c.toNat && c.toNat ≤ 0x39) || (0x61 ≤ c.toNat && c.toNat ≤ 0x66)
    || (0x41 ≤ c.toNat && c.toNat ≤ 0x46)

/-- The value, 0 to 15, of a hexadecimal digit. -/
def hexDigitValue (c : Char) : Nat :=
  if c.toNat ≤ 0x39 then c.toNat - 0x30
  else if c.toNat ≤ 0x46 then c.toNat - 0x41 + 10
  else c.toNat - 0x61 + 10

/-- The byte value, 0 to 255, of a pair of hexadecimal digits. -/
def hexPairValue (hi lo : Char) : Nat :=
  16 * hexDigitValue hi + hexDigitValue lo

/-- The normalised text is `#` followed by exactly 3, 6 or 8 hexadecimal digits. -/
def isHexForm (s : List Char) : Bool :=
  match s with
  | [] => false
  | c :: ds => c == '#' && (ds.length == 3 || ds.length == 6 || ds.length == 8)
      && ds.all isHexDigit

/-- The normalised text is `#` followed by exactly eight hexadecimal digits. -/
def isHex8Form (s : List Char) : Bool :=
  match s with
  | [] => false
  | c :: ds => c == '#' && ds.length == 8 && ds.all isHexDigit

/-- The four names of the palette. -/
def paletteNames : List (List Char) :=
  ["white".toList, "red".toList, "green".toList, "blue".toList]

/-- `a` and `b` are the same rune, or the two cases of one ASCII letter. -/
def caseVariant (a b : Char) : Bool :=
  a == b
    || (0x41 ≤ a.toNat && a.toNat ≤ 0x5A && b.toNat == a.toNat + (0x61 - 0x41))
    || (0x41 ≤ b.toNat && b.toNat ≤ 0x5A && a.toNat == b.toNat + (0x61 - 0x41))

/-- The text `t` is `s` with the case of some of its ASCII letters changed. -/
def caseChanged (s t : List Char) : Prop :=
  List.Forall₂ (fun a b => caseVariant a b = true) s t

/-! ## Auxiliary definitions of the proofs -/

/-- The ASCII branch of `unicodeToLower`. -/
def asciiToLower (c : Char) : Char :=
  if 0x41 ≤ c.toNat ∧ c.toNat ≤ 0x5A then Char.ofNat (c.toNat + (0x61 - 0x41)) else c

/-- The byte of a hexadecimal digit. -/
def isHexByte (b : Nat) : Prop :=
  b < 128 ∧ isHexDigit (Char.ofNat b) = true

end Cairoops

namespace Testingops

/-! ## testingops.go -/

/-- One call of a function bound to `libgtk-4` or `libgobject-2.0`, with its
arguments (a `string` argument is given by its bytes). -/
inductive GtkCall
  | rendererRenderTexture (renderer node viewport : Nat)
  | textureSaveToPng (texture : Nat) (filename : List Nat)
  | objectUnref (object : Nat)
  | signalEmitByName (object : Nat) (signal : List Nat)
  deriving DecidableEq

/-- The Go function `RenderAndSave`: its result and the calls it makes, in
order.  The two bound functions that return a value are parameters:
`gskRendererRenderTexture` gives the texture (`0` is none) and
`gdkTextureSaveToPng` the outcome of the write; each is called at most once,
so a function of the arguments stands for any behaviour of the library.  The
deferred `gObjectUnref(texture)` runs once the operand of `return` has been
evaluated. -/
def RenderAndSave (gskRendererRenderTexture : Nat → Nat → Nat → Nat)
    (gdkTextureSaveToPng : Nat → List Nat → Bool)
    (rendererPtr nodePtr : Nat) (filename : List Nat) : Bool × List GtkCall :=
  if rendererPtr = 0 ∨ nodePtr = 0 then (false, [])
  else
    let texture := gskRendererRenderTexture rendererPtr nodePtr 0
    if texture = 0 then (false, [GtkCall.rendererRenderTexture rendererPtr nodePtr 0])
    else
      (gdkTextureSaveToPng texture filename,
        [GtkCall.rendererRenderTexture rendererPtr nodePtr 0,
         GtkCall.textureSaveToPng texture filename,
         GtkCall.objectUnref texture])

/-- The Go function `EmitClicked`: the calls it makes. -/
def EmitClicked (widgetPtr : Nat) : List GtkCall :=
  if widgetPtr = 0 then []
  else [GtkCall.signalEmitByName widgetPtr (Cairoops.utf8 "clicked".toList)]

end Testingops

namespace Cairoops

/-! ## Bytes and runes -/

theorem encodeRune_ascii (c : Char) (hc : c.toNat < 128) : encodeRune c = [c.toNat] := by
  unfold encodeRune
  simp only []
  rw [if_pos (by omega)]

theorem encodeRune_head_ge (c : Char) (hc : ¬ c.toNat < 128) :
    ∃ b rest, encodeRune c = b :: rest ∧ 128 ≤ b := by
  unfold encodeRune
  simp only []
  split_ifs
  · omega
  · exact ⟨_, _, rfl, by omega⟩
  · exact ⟨_, _, rfl, by omega⟩
  · exact ⟨_, _, rfl, by omega⟩

theorem utf8_cons (c : Char) (s : List Char) : utf8 (c :: s) = encodeRune c ++ utf8 s := by
  simp [utf8]

theorem utf8_ascii_cons (c : Char) (s : List Char) (hc : c.toNat < 128) :
    utf8 (c :: s) = c.toNat :: utf8 s := by
  rw [utf8_cons, encodeRune_ascii c hc]; rfl

/-- A byte string of ASCII bytes is the encoding of one rune sequence only. -/
theorem utf8_ascii_inv : ∀ (s : List Char) (l : List Nat), utf8 s = l →
    (∀ b ∈ l, b < 128) → s = l.map Char.ofNat
  | [], l, h, _ => by
    have : l = [] := by rw [← h]; rfl
    subst this; rfl
  | c :: s, l, h, hl => by
    by_cases hc : c.toNat < 128
    · rw [utf8_ascii_cons c s hc] at h
      subst h
      have ih := utf8_ascii_inv s (utf8 s) rfl (fun b hb => hl b (List.mem_cons_of_mem _ hb))
      rw [List.map_cons, Char.ofNat_toNat, ← ih]
    · obtain ⟨b, rest, hb, hge⟩ := encodeRune_head_ge c hc
      rw [utf8_cons, hb] at h
      subst h
      have := hl b (by simp)
      omega

/-! ## Hexadecimal bytes -/

theorem lowerByte_ge (c : Nat) : c ≤ lowerByte c := by
  apply Nat.le_of_testBit
  intro i hi
  simp [lowerByte, Nat.testBit_or, hi]

theorem digitValue_of_ge (c : Nat) (hc : 128 ≤ c) : digitValue c = none := by
  have h := lowerByte_ge c
  unfold digitValue
  rw [if_neg (by omega), if_neg (by omega)]

theorem digitValue_table : ∀ c, c < 128 → ∀ d, d < 16 → digitValue c = some d →
    (isHexDigit (Char.ofNat c) = true ∧ hexDigitValue (Char.ofNat c) = d) := by
  decide

theorem hexDigit_table : ∀ c, c < 128 → isHexDigit (Char.ofNat c) = true →
    (digitValue c = some (hexDigitValue (Char.ofNat c)) ∧ hexDigitValue (Char.ofNat c) < 16) := by
  decide

theorem isHexDigit_ascii (c : Char) (h : isHexDigit c = true) : c.toNat < 128 := by
  unfold isHexDigit at h
  simp only [Bool.or_eq_true, Bool.and_eq_true, decide_eq_true_eq] at h
  omega

theorem digitValue_of_isHexDigit (c : Char) (h : isHexDigit c = true) :
    digitValue c.toNat = some (hexDigitValue c) ∧ hexDigitValue c < 16 := by
  have h1 := hexDigit_table c.toNat (isHexDigit_ascii c h)
  rw [Char.ofNat_toNat] at h1
  exact h1 h

/-! ## `strconv.ParseUint` and `parseHexByte` -/

theorem ParseUint_loop_le (base cutoff maxVal : Nat) :
    ∀ (s : List Nat) (n0 n : Nat), ParseUint.loop base cutoff maxVal s n0 = some n →
      n0 ≤ maxVal → n ≤ maxVal
  | [], n0, n, h, h0 => by
    simp only [ParseUint.loop, Option.some.injEq] at h
    omega
  | c :: rest, n0, n, h, _ => by
    unfold ParseUint.loop at h
    split at h
    · exact absurd h (by simp)
    · split_ifs at h with h1 h2 h3
      exact ParseUint_loop_le base cutoff maxVal rest _ n h (by omega)

theorem ParseUint_le (v : List Nat) (n : Nat) (h : ParseUint v 16 8 = some n) : n ≤ 255 := by
  unfold ParseUint at h
  split_ifs at h
  exact ParseUint_loop_le _ _ _ v 0 n h (by norm_num)

theorem ParseUint_pair (a b x y : Nat) (ha : digitValue a = some x) (hx : x < 16)
    (hb : digitValue b = some y) (hy : y < 16) :
    ParseUint [a, b] 16 8 = some (16 * x + y) := by
  have e1 : ¬ (x ≥ 16) := by omega
  have e2 : ¬ (0 * 16 + x > 2 ^ 8 - 1) := by norm_num; omega
  have e3 : ¬ (y ≥ 16) := by omega
  have e4 : ¬ (0 * 16 + x ≥ (2 ^ 64 - 1) / 16 + 1) := by norm_num; omega
  have e5 : ¬ ((0 * 16 + x) * 16 + y > 2 ^ 8 - 1) := by norm_num; omega
  have e6 : ¬ (0 ≥ (2 ^ 64 - 1) / 16 + 1) := by norm_num
  simp only [ParseUint, ParseUint.loop, ha, hb, if_neg e1, if_neg e2, if_neg e3, if_neg e4,
    if_neg e5, if_neg e6, if_neg (List.cons_ne_nil a [b])]
  congr 1
  omega

theorem ParseUint_pair_inv (a b n : Nat) (h : ParseUint [a, b] 16 8 = some n) :
    ∃ x y, digitValue a = some x ∧ x < 16 ∧ digitValue b = some y ∧ y < 16 := by
  cases ha : digitValue a with
  | none => simp [ParseUint, ParseUint.loop, ha] at h
  | some x =>
    cases hb : digitValue b with
    | none => simp [ParseUint, ParseUint.loop, ha, hb] at h
    | some y =>
      refine ⟨x, y, rfl, ?_, rfl, ?_⟩
      · by_contra hx
        have hx1 : 16 ≤ x := by omega
        simp [ParseUint, ParseUint.loop, ha, hb, hx1] at h
      · by_contra hy
        have hy1 : 16 ≤ y := by omega
        simp [ParseUint, ParseUint.loop, ha, hb, hy1] at h

theorem ParseUint_head_none (c : Nat) (rest : List Nat) (hc : digitValue c = none) :
    ParseUint (c :: rest) 16 8 = none := by
  simp [ParseUint, ParseUint.loop, hc]

theorem parseHexByte_pair (a b : Char) (ha : isHexDigit a = true) (hb : isHexDigit b = true) :
    parseHexByte [a.toNat, b.toNat] = ((hexPairValue a b : ℚ) / 255, true) := by
  obtain ⟨a1, a2⟩ := digitValue_of_isHexDigit a ha
  obtain ⟨b1, b2⟩ := digitValue_of_isHexDigit b hb
  simp only [parseHexByte, ParseUint_pair _ _ _ _ a1 a2 b1 b2, hexPairValue]

theorem isHexByte_of_digitValue (b x : Nat) (h : digitValue b = some x) (hx : x < 16) :
    isHexByte b := by
  have hb : b < 128 := by
    by_contra hge
    rw [digitValue_of_ge b (by omega)] at h
    exact absurd h (by simp)
  exact ⟨hb, (digitValue_table b hb x hx h).1⟩

theorem parseHexByte_pair_ok (a b : Nat) (h : (parseHexByte [a, b]).2 = true) :
    isHexByte a ∧ isHexByte b := by
  unfold parseHexByte at h
  cases hp : ParseUint [a, b] 16 8 with
  | none => rw [hp] at h; exact absurd h (by simp)
  | some n =>
    obtain ⟨x, y, h1, h2, h3, h4⟩ := ParseUint_pair_inv a b n hp
    exact ⟨isHexByte_of_digitValue a x h1 h2, isHexByte_of_digitValue b y h3 h4⟩

theorem parseHexByte_repeat_ok (b : Nat)
    (h : (parseHexByte (Repeat (byteToString b) 2)).2 = true) : isHexByte b := by
  by_cases hb : b ≤ 0x7F
  · have e : Repeat (byteToString b) 2 = [b, b] := by
      simp [Repeat, byteToString, hb, List.replicate]
    rw [e] at h
    exact (parseHexByte_pair_ok b b h).1
  · have e : Repeat (byteToString b) 2
        = (0xC0 + b / 64) :: [0x80 + b % 64, 0xC0 + b / 64, 0x80 + b % 64] := by
      simp [Repeat, byteToString, hb, List.replicate]
    rw [e] at h
    unfold parseHexByte at h
    rw [ParseUint_head_none _ _ (digitValue_of_ge _ (by omega))] at h
    exact absurd h (by simp)

theorem parseHexByte_range (v : List Nat) :
    0 ≤ (parseHexByte v).1 ∧ (parseHexByte v).1 ≤ 1 := by
  unfold parseHexByte
  cases hp : ParseUint v 16 8 with
  | none => simp
  | some n =>
    have hn := ParseUint_le v n hp
    have hq : (n : ℚ) ≤ 255 := by exact_mod_cast hn
    constructor
    · positivity
    · simp only []
      rw [div_le_one (by norm_num)]
      exact hq

/-! ## `colorRGBA` on the normalised text -/

theorem utf8_hash_cons (ds : List Char) : utf8 ('#' :: ds) = 35 :: utf8 ds :=
  utf8_ascii_cons '#' ds (by decide)

theorem utf8_hash : utf8 "#".toList = [35] := by
  decide

theorem utf8_hex3 (a b c : Char) (ha : isHexDigit a = true) (hb : isHexDigit b = true)
    (hc : isHexDigit c = true) : utf8 ['#', a, b, c] = [35, a.toNat, b.toNat, c.toNat] := by
  rw [utf8_hash_cons, utf8_ascii_cons a _ (isHexDigit_ascii a ha),
    utf8_ascii_cons b _ (isHexDigit_ascii b hb), utf8_ascii_cons c _ (isHexDigit_ascii c hc)]
  rfl

theorem colorRGBA_of_hex3 (T : Char → Char) (color : List Char) (a b c : Char)
    (ha : isHexDigit a = true) (hb : isHexDigit b = true) (hc : isHexDigit c = true)
    (h : normalize T color = ['#', a, b, c]) :
    colorRGBA T color = ((hexPairValue a a : ℚ) / 255, (hexPairValue b b : ℚ) / 255,
      (hexPairValue c c : ℚ) / 255, 1) := by
  have ea : Repeat (byteToString a.toNat) 2 = [a.toNat, a.toNat] := by
    have := isHexDigit_ascii a ha
    simp [Repeat, byteToString, show a.toNat ≤ 127 by omega, List.replicate]
  have eb : Repeat (byteToString b.toNat) 2 = [b.toNat, b.toNat] := by
    have := isHexDigit_ascii b hb
    simp [Repeat, byteToString, show b.toNat ≤ 127 by omega, List.replicate]
  have ec : Repeat (byteToString c.toNat) 2 = [c.toNat, c.toNat] := by
    have := isHexDigit_ascii c hc
    simp [Repeat, byteToString, show c.toNat ≤ 127 by omega, List.replicate]
  unfold colorRGBA
  simp only [h, utf8_hex3 a b c ha hb hc, utf8_hash]
  simp [HasPrefix, ea, eb, ec, parseHexByte_pair, ha, hb, hc]

theorem utf8_hex_digits : ∀ (ds : List Char), (∀ d ∈ ds, isHexDigit d = true) →
    utf8 ds = ds.map Char.toNat
  | [], _ => rfl
  | d :: ds, h => by
    rw [utf8_ascii_cons d ds (isHexDigit_ascii d (h d (by simp))), List.map_cons,
      utf8_hex_digits ds (fun x hx => h x (List.mem_cons_of_mem _ hx))]

theorem colorRGBA_of_hex6 (T : Char → Char) (color : List Char) (a b c d e f : Char)
    (ha : isHexDigit a = true) (hb : isHexDigit b = true) (hc : isHexDigit c = true)
    (hd : isHexDigit d = true) (he : isHexDigit e = true) (hf : isHexDigit f = true)
    (h : normalize T color = ['#', a, b, c, d, e, f]) :
    colorRGBA T color = ((hexPairValue a b : ℚ) / 255, (hexPairValue c d : ℚ) / 255,
      (hexPairValue e f : ℚ) / 255, 1) := by
  have hu : utf8 [a, b, c, d, e, f] = [a, b, c, d, e, f].map Char.toNat :=
    utf8_hex_digits _ (by simp [ha, hb, hc, hd, he, hf])
  unfold colorRGBA
  simp only [h, utf8_hash_cons, hu, utf8_hash]
  simp [HasPrefix, slice, parseHexByte_pair, ha, hb, hc, hd, he, hf]

theorem colorRGBA_of_hex8 (T : Char → Char) (color : List Char) (a b c d e f g k : Char)
    (ha : isHexDigit a = true) (hb : isHexDigit b = true) (hc : isHexDigit c = true)
    (hd : isHexDigit d = true) (he : isHexDigit e = true) (hf : isHexDigit f = true)
    (hg : isHexDigit g = true) (hk : isHexDigit k = true)
    (h : normalize T color = ['#', a, b, c, d, e, f, g, k]) :
    colorRGBA T color = ((hexPairValue a b : ℚ) / 255, (hexPairValue c d : ℚ) / 255,
      (hexPairValue e f : ℚ) / 255, (hexPairValue g k : ℚ) / 255) := by
  have hu : utf8 [a, b, c, d, e, f, g, k] = [a, b, c, d, e, f, g, k].map Char.toNat :=
    utf8_hex_digits _ (by simp [ha, hb, hc, hd, he, hf, hg, hk])
  unfold colorRGBA
  simp only [h, utf8_hash_cons, hu, utf8_hash]
  simp [HasPrefix, slice, parseHexByte_pair, ha, hb, hc, hd, he, hf, hg, hk]

theorem HasPrefix_hash (n : List Char) (h : HasPrefix (utf8 n) (utf8 "#".toList) = true) :
    ∃ ds, n = '#' :: ds := by
  rw [utf8_hash] at h
  cases n with
  | nil => simp [HasPrefix, utf8] at h
  | cons c ds =>
    by_cases hc : c.toNat < 128
    · rw [utf8_ascii_cons c ds hc] at h
      simp [HasPrefix] at h
      refine ⟨ds, ?_⟩
      have e : c = Char.ofNat 35 := by rw [← h]; exact (Char.ofNat_toNat c).symm
      rw [e]
    · obtain ⟨b, rest, hb, hge⟩ := encodeRune_head_ge c hc
      rw [utf8_cons, hb] at h
      simp [HasPrefix] at h
      omega

theorem isHexForm_of_bytes (ds : List Char)
    (hlen : (utf8 ds).length = 3 ∨ (utf8 ds).length = 6 ∨ (utf8 ds).length = 8)
    (hl : ∀ b ∈ utf8 ds, isHexByte b) : isHexForm ('#' :: ds) = true := by
  have e := utf8_ascii_inv ds (utf8 ds) rfl (fun b hb => (hl b hb).1)
  have hlen2 : ds.length = (utf8 ds).length := by
    conv_lhs => rw [e]
    simp
  have hall : ∀ d ∈ ds, isHexDigit d = true := by
    intro d hd
    rw [e] at hd
    obtain ⟨b, hb, rfl⟩ := List.mem_map.1 hd
    exact (hl b hb).2
  simp only [isHexForm, beq_self_eq_true, Bool.true_and, Bool.and_eq_true, Bool.or_eq_true,
    beq_iff_eq, List.all_eq_true]
  exact ⟨by omega, hall⟩

theorem length_six {α : Type} : ∀ (l : List α), l.length = 6 →
    ∃ a b c d e f, l = [a, b, c, d, e, f]
  | [a, b, c, d, e, f], _ => ⟨a, b, c, d, e, f, rfl⟩

theorem length_eight {α : Type} : ∀ (l : List α), l.length = 8 →
    ∃ a b c d e f g k, l = [a, b, c, d, e, f, g, k]
  | [a, b, c, d, e, f, g, k], _ => ⟨a, b, c, d, e, f, g, k, rfl⟩

theorem hex3_not_ok (n : List Char) (h : isHexForm n = false)
    (hp : HasPrefix (utf8 n) (utf8 "#".toList) = true)
    (h3 : ((utf8 n).drop 1).length = 3) :
    ¬ ((parseHexByte (Repeat (byteToString (((utf8 n).drop 1).getD 0 0)) 2)).2
        && (parseHexByte (Repeat (byteToString (((utf8 n).drop 1).getD 1 0)) 2)).2
        && (parseHexByte (Repeat (byteToString (((utf8 n).drop 1).getD 2 0)) 2)).2) = true := by
  intro hok
  obtain ⟨ds, hds⟩ := HasPrefix_hash _ hp
  rw [hds, utf8_hash_cons] at h3 hok
  simp only [List.drop_succ_cons, List.drop_zero] at h3 hok
  obtain ⟨b0, b1, b2, hb⟩ := List.length_eq_three.1 h3
  rw [hb] at hok
  simp only [List.getD_cons_zero, List.getD_cons_succ, Bool.and_eq_true] at hok
  have k0 := parseHexByte_repeat_ok b0 hok.1.1
  have k1 := parseHexByte_repeat_ok b1 hok.1.2
  have k2 := parseHexByte_repeat_ok b2 hok.2
  have := isHexForm_of_bytes ds (Or.inl h3) (by rw [hb]; simp [k0, k1, k2])
  rw [hds, this] at h
  exact absurd h (by simp)

theorem hex6_not_ok (n : List Char) (h : isHexForm n = false)
    (hp : HasPrefix (utf8 n) (utf8 "#".toList) = true)
    (h6 : ((utf8 n).drop 1).length = 6) :
    ¬ ((parseHexByte (slice ((utf8 n).drop 1) 0 2)).2
        && (parseHexByte (slice ((utf8 n).drop 1) 2 4)).2
        && (parseHexByte (slice ((utf8 n).drop 1) 4 6)).2) = true := by
  intro hok
  obtain ⟨ds, hds⟩ := HasPrefix_hash _ hp
  rw [hds, utf8_hash_cons] at h6 hok
  simp only [List.drop_succ_cons, List.drop_zero] at h6 hok
  obtain ⟨b0, b1, b2, b3, b4, b5, hb⟩ := length_six _ h6
  rw [hb] at hok
  simp only [slice, List.drop_succ_cons, List.drop_zero, List.take_succ_cons, List.take_zero,
    Bool.and_eq_true] at hok
  have k0 := parseHexByte_pair_ok _ _ hok.1.1
  have k1 := parseHexByte_pair_ok _ _ hok.1.2
  have k2 := parseHexByte_pair_ok _ _ hok.2
  have := isHexForm_of_bytes ds (Or.inr (Or.inl h6))
    (by rw [hb]; simp [k0.1, k0.2, k1.1, k1.2, k2.1, k2.2])
  rw [hds, this] at h
  exact absurd h (by simp)

theorem hex8_not_ok (n : List Char) (h : isHexForm n = false)
    (hp : HasPrefix (utf8 n) (utf8 "#".toList) = true)
    (h8 : ((utf8 n).drop 1).length = 8) :
    ¬ ((parseHexByte (slice ((utf8 n).drop 1) 0 2)).2
        && (parseHexByte (slice ((utf8 n).drop 1) 2 4)).2
        && (parseHexByte (slice ((utf8 n).drop 1) 4 6)).2
        && (parseHexByte (slice ((utf8 n).drop 1) 6 8)).2) = true := by
  intro hok
  obtain ⟨ds, hds⟩ := HasPrefix_hash _ hp
  rw [hds, utf8_hash_cons] at h8 hok
  simp only [List.drop_succ_cons, List.drop_zero] at h8 hok
  obtain ⟨b0, b1, b2, b3, b4, b5, b6, b7, hb⟩ := length_eight _ h8
  rw [hb] at hok
  simp only [slice, List.drop_succ_cons, List.drop_zero, List.take_succ_cons, List.take_zero,
    Bool.and_eq_true] at hok
  have k0 := parseHexByte_pair_ok _ _ hok.1.1.1
  have k1 := parseHexByte_pair_ok _ _ hok.1.1.2
  have k2 := parseHexByte_pair_ok _ _ hok.1.2
  have k3 := parseHexByte_pair_ok _ _ hok.2
  have := isHexForm_of_bytes ds (Or.inr (Or.inr h8))
    (by rw [hb]; simp [k0.1, k0.2, k1.1, k1.2, k2.1, k2.2, k3.1, k3.2])
  rw [hds, this] at h
  exact absurd h (by simp)

/-- Outside the three hexadecimal forms `colorRGBA` reaches the named colours. -/
theorem colorRGBA_fallthrough (T : Char → Char) (color : List Char)
    (h : isHexForm (normalize T color) = false) :
    colorRGBA T color = namedColor (utf8 (normalize T color)) := by
  unfold colorRGBA
  simp only []
  split_ifs with hp h3 k3 h6 k6 h8 k8
  · exact absurd k3 (hex3_not_ok _ h hp h3)
  · rfl
  · exact absurd k6 (hex6_not_ok _ h hp h6)
  · rfl
  · exact absurd k8 (hex8_not_ok _ h hp h8)
  · rfl
  · rfl
  · rfl

theorem utf8_white : utf8 "white".toList = [119, 104, 105, 116, 101] := by decide
theorem utf8_red : utf8 "red".toList = [114, 101, 100] := by decide
theorem utf8_green : utf8 "green".toList = [103, 114, 101, 101, 110] := by decide
theorem utf8_blue : utf8 "blue".toList = [98, 108, 117, 101] := by decide

theorem namedColor_default (n : List Char) (h : n ∉ paletteNames) :
    namedColor (utf8 n) = (0, 0, 0, 1) := by
  have hw : utf8 n ≠ utf8 "white".toList := by
    intro e
    rw [utf8_white] at e
    have := utf8_ascii_inv n _ e (by decide)
    exact h (by rw [this]; decide)
  have hr : utf8 n ≠ utf8 "red".toList := by
    intro e
    rw [utf8_red] at e
    have := utf8_ascii_inv n _ e (by decide)
    exact h (by rw [this]; decide)
  have hg : utf8 n ≠ utf8 "green".toList := by
    intro e
    rw [utf8_green] at e
    have := utf8_ascii_inv n _ e (by decide)
    exact h (by rw [this]; decide)
  have hb : utf8 n ≠ utf8 "blue".toList := by
    intro e
    rw [utf8_blue] at e
    have := utf8_ascii_inv n _ e (by decide)
    exact h (by rw [this]; decide)
  unfold namedColor
  rw [if_neg hw, if_neg hr, if_neg hg, if_neg hb]

theorem namedColor_white : namedColor (utf8 "white".toList) = (1, 1, 1, 1) := by
  unfold namedColor
  rw [if_pos rfl]

theorem namedColor_red : namedColor (utf8 "red".toList) = (1, 0, 0, 1) := by
  unfold namedColor
  rw [if_neg (by decide), if_pos rfl]

theorem namedColor_green : namedColor (utf8 "green".toList) = (0, 1, 0, 1) := by
  unfold namedColor
  rw [if_neg (by decide), if_neg (by decide), if_pos rfl]

theorem namedColor_blue : namedColor (utf8 "blue".toList) = (0, 0, 1, 1) := by
  unfold namedColor
  rw [if_neg (by decide), if_neg (by decide), if_neg (by decide), if_pos rfl]

theorem namedColor_range (s : List Nat) :
    (0 ≤ (namedColor s).1 ∧ (namedColor s).1 ≤ 1) ∧
    (0 ≤ (namedColor s).2.1 ∧ (namedColor s).2.1 ≤ 1) ∧
    (0 ≤ (namedColor s).2.2.1 ∧ (namedColor s).2.2.1 ≤ 1) ∧
    (0 ≤ (namedColor s).2.2.2 ∧ (namedColor s).2.2.2 ≤ 1) := by
  unfold namedColor
  split_ifs <;> norm_num

/-! ## Normalisation -/

theorem unicodeToLower_ascii (T : Char → Char) (c : Char) (hc : c.toNat < 128) :
    unicodeToLower T c = asciiToLower c := by
  unfold unicodeToLower asciiToLower
  rw [if_pos (by omega)]

theorem asciiToLower_hex_table : ∀ n, n < 128 → isHexDigit (Char.ofNat n) = true →
    (isHexDigit (asciiToLower (Char.ofNat n)) = true
      ∧ hexDigitValue (asciiToLower (Char.ofNat n)) = hexDigitValue (Char.ofNat n)
      ∧ IsSpace (asciiToLower (Char.ofNat n)) = false) := by
  decide

theorem unicodeToLower_hex (T : Char → Char) (c : Char) (h : isHexDigit c = true) :
    isHexDigit (unicodeToLower T c) = true
      ∧ hexDigitValue (unicodeToLower T c) = hexDigitValue c
      ∧ IsSpace (unicodeToLower T c) = false := by
  have hc := isHexDigit_ascii c h
  rw [unicodeToLower_ascii T c hc]
  have := asciiToLower_hex_table c.toNat hc
  rw [Char.ofNat_toNat] at this
  exact this h

theorem unicodeToLower_hash (T : Char → Char) : unicodeToLower T '#' = '#' := by
  rw [unicodeToLower_ascii T '#' (by decide)]
  decide

theorem TrimSpace_hash_cons (ds : List Char)
    (h : ∀ c, (('#' :: ds).getLast?) = some c → IsSpace c = false) :
    TrimSpace ('#' :: ds) = '#' :: ds := by
  have h0 : IsSpace '#' = false := by decide
  unfold TrimSpace TrimLeftSpace TrimRightSpace
  rw [List.dropWhile_cons_of_neg (by simp [h0])]
  rcases hr : ('#' :: ds).reverse with _ | ⟨x, xs⟩
  · simp at hr
  · have hx : ('#' :: ds).getLast? = some x := by
      rw [List.getLast?_eq_head?_reverse, hr]; rfl
    rw [List.dropWhile_cons_of_neg (by simp [h x hx]), ← hr, List.reverse_reverse]

theorem normalize_hex3 (T : Char → Char) (r g b : Char) (hb : isHexDigit b = true) :
    normalize T ['#', r, g, b]
      = ['#', unicodeToLower T r, unicodeToLower T g, unicodeToLower T b] := by
  unfold normalize ToLower
  simp only [List.map_cons, List.map_nil, unicodeToLower_hash]
  apply TrimSpace_hash_cons
  intro c hc
  simp only [List.getLast?_cons_cons, List.getLast?_singleton, Option.some.injEq] at hc
  rw [← hc]
  exact (unicodeToLower_hex T b hb).2.2

theorem normalize_hex6 (T : Char → Char) (a b c d e f : Char) (hf : isHexDigit f = true) :
    normalize T ['#', a, b, c, d, e, f]
      = ['#', unicodeToLower T a, unicodeToLower T b, unicodeToLower T c,
          unicodeToLower T d, unicodeToLower T e, unicodeToLower T f] := by
  unfold normalize ToLower
  simp only [List.map_cons, List.map_nil, unicodeToLower_hash]
  apply TrimSpace_hash_cons
  intro c hc
  simp only [List.getLast?_cons_cons, List.getLast?_singleton, Option.some.injEq] at hc
  rw [← hc]
  exact (unicodeToLower_hex T f hf).2.2

theorem dropWhile_append_of_all {α : Type} (p : α → Bool) :
    ∀ (ws l : List α), (∀ c ∈ ws, p c = true) → (ws ++ l).dropWhile p = l.dropWhile p
  | [], _, _ => rfl
  | w :: ws, l, h => by
    rw [List.cons_append, List.dropWhile_cons_of_pos (h w (by simp))]
    exact dropWhile_append_of_all p ws l (fun c hc => h c (List.mem_cons_of_mem _ hc))

theorem TrimRightSpace_append (l ws : List Char) (h : ∀ c ∈ ws, IsSpace c = true) :
    TrimRightSpace (l ++ ws) = TrimRightSpace l := by
  unfold TrimRightSpace
  rw [List.reverse_append, dropWhile_append_of_all IsSpace ws.reverse l.reverse
    (fun c hc => h c (List.mem_reverse.1 hc))]

theorem TrimLeftSpace_append : ∀ (l ws : List Char), (∀ c ∈ ws, IsSpace c = true) →
    TrimRightSpace (TrimLeftSpace (l ++ ws)) = TrimRightSpace (TrimLeftSpace l)
  | [], ws, h => by
    have e : TrimLeftSpace ws = [] := by
      unfold TrimLeftSpace
      have := dropWhile_append_of_all IsSpace ws [] h
      simpa using this
    rw [List.nil_append, e]
    rfl
  | c :: l, ws, h => by
    by_cases hc : IsSpace c = true
    · have e1 : TrimLeftSpace (c :: l ++ ws) = TrimLeftSpace (l ++ ws) := by
        unfold TrimLeftSpace
        rw [List.cons_append, List.dropWhile_cons_of_pos hc]
      have e2 : TrimLeftSpace (c :: l) = TrimLeftSpace l := by
        unfold TrimLeftSpace
        rw [List.dropWhile_cons_of_pos hc]
      rw [e1, e2]
      exact TrimLeftSpace_append l ws h
    · have e1 : TrimLeftSpace (c :: l ++ ws) = c :: l ++ ws := by
        unfold TrimLeftSpace
        rw [List.cons_append, List.dropWhile_cons_of_neg hc]
      have e2 : TrimLeftSpace (c :: l) = c :: l := by
        unfold TrimLeftSpace
        rw [List.dropWhile_cons_of_neg hc]
      rw [e1, e2]
      exact TrimRightSpace_append (c :: l) ws h

theorem TrimSpace_pad (ws1 l ws2 : List Char) (h1 : ∀ c ∈ ws1, IsSpace c = true)
    (h2 : ∀ c ∈ ws2, IsSpace c = true) : TrimSpace (ws1 ++ l ++ ws2) = TrimSpace l := by
  unfold TrimSpace
  have e : TrimLeftSpace (ws1 ++ l ++ ws2) = TrimLeftSpace (l ++ ws2) := by
    unfold TrimLeftSpace
    rw [List.append_assoc]
    exact dropWhile_append_of_all IsSpace ws1 (l ++ ws2) h1
  rw [e]
  exact TrimLeftSpace_append l ws2 h2

theorem IsSpace_ascii_table : ∀ n, n < 128 → IsSpace (Char.ofNat n) = true →
    asciiToLower (Char.ofNat n) = Char.ofNat n := by
  decide

theorem unicodeToLower_space (T : Char → Char)
    (hT : ∀ c, 0x7F < c.toNat → IsSpace c = true → IsSpace (T c) = true)
    (c : Char) (hc : IsSpace c = true) : IsSpace (unicodeToLower T c) = true := by
  by_cases ha : c.toNat < 128
  · rw [unicodeToLower_ascii T c ha]
    have := IsSpace_ascii_table c.toNat ha
    rw [Char.ofNat_toNat] at this
    rw [this hc]
    exact hc
  · unfold unicodeToLower
    rw [if_neg (by omega)]
    exact hT c (by omega) hc

theorem unicodeToLower_caseVariant (T : Char → Char) (a b : Char)
    (h : caseVariant a b = true) : unicodeToLower T b = unicodeToLower T a := by
  unfold caseVariant at h
  simp only [Bool.or_eq_true, Bool.and_eq_true, decide_eq_true_eq, beq_iff_eq] at h
  rcases h with (h | ⟨⟨h1, h2⟩, h3⟩) | ⟨⟨h1, h2⟩, h3⟩
  · rw [h]
  · rw [unicodeToLower_ascii T a (by omega), unicodeToLower_ascii T b (by omega)]
    unfold asciiToLower
    rw [if_neg (show ¬ (0x41 ≤ b.toNat ∧ b.toNat ≤ 0x5A) by omega),
      if_pos (show 0x41 ≤ a.toNat ∧ a.toNat ≤ 0x5A from ⟨h1, h2⟩), ← h3, Char.ofNat_toNat]
  · rw [unicodeToLower_ascii T a (by omega), unicodeToLower_ascii T b (by omega)]
    unfold asciiToLower
    rw [if_neg (show ¬ (0x41 ≤ a.toNat ∧ a.toNat ≤ 0x5A) by omega),
      if_pos (show 0x41 ≤ b.toNat ∧ b.toNat ≤ 0x5A from ⟨h1, h2⟩), ← h3, Char.ofNat_toNat]

theorem ToLower_caseChanged (T : Char → Char) (s t : List Char) (h : caseChanged s t) :
    ToLower T t = ToLower T s := by
  unfold caseChanged at h
  induction h with
  | nil => rfl
  | cons hab _ ih =>
    unfold ToLower at ih ⊢
    rw [List.map_cons, List.map_cons, ih, unicodeToLower_caseVariant T _ _ hab]

theorem hexPairValue_le (a b : Char) (ha : isHexDigit a = true) (hb : isHexDigit b = true) :
    hexPairValue a b ≤ 255 := by
  have := digitValue_of_isHexDigit a ha
  have := digitValue_of_isHexDigit b hb
  unfold hexPairValue
  omega

theorem isHexForm_of_head (n : List Char) (h : n.head? ≠ some '#') : isHexForm n = false := by
  cases n with
  | nil => rfl
  | cons c ds =>
    have hc : c ≠ '#' := fun e => h (by rw [e]; rfl)
    simp [isHexForm, hc]

theorem colorRGBA_white_id : colorRGBA id "white".toList = (1, 1, 1, 1) := by
  rw [colorRGBA_fallthrough id _ (by decide), show normalize id "white".toList = "white".toList
    by decide, namedColor_white]

/-! ## Drawing commands -/

theorem Float64_le_of_gt (x : Float64) (h : x.gt Float64.zero = true) :
    x.le Float64.zero = false := by
  cases x with
  | nan => simp [Float64.gt] at h
  | negInf => simp [Float64.gt, Float64.zero] at h
  | posInf => simp [Float64.le, Float64.zero]
  | finite q =>
    simp only [Float64.gt, Float64.zero, decide_eq_true_eq] at h
    simp only [Float64.le, Float64.zero, decide_eq_false_iff_not, not_le]
    exact h

theorem guard_of_gt (ctx : Nat) (w h : Float64) (hctx : ctx ≠ 0)
    (hw : w.gt Float64.zero = true) (hh : h.gt Float64.zero = true) :
    ¬ (ctx = 0 ∨ w.le Float64.zero = true ∨ h.le Float64.zero = true) := by
  rw [Float64_le_of_gt w hw, Float64_le_of_gt h hh]
  simp [hctx]

theorem namedColor_alpha (s : List Nat) : (namedColor s).2.2.2 = 1 := by
  unfold namedColor
  split_ifs <;> rfl

theorem isHex8Form_of_parse (n : List Char)
    (hp : HasPrefix (utf8 n) (utf8 "#".toList) = true)
    (h8 : ((utf8 n).drop 1).length = 8)
    (hok : ((parseHexByte (slice ((utf8 n).drop 1) 0 2)).2
        && (parseHexByte (slice ((utf8 n).drop 1) 2 4)).2
        && (parseHexByte (slice ((utf8 n).drop 1) 4 6)).2
        && (parseHexByte (slice ((utf8 n).drop 1) 6 8)).2) = true) :
    isHex8Form n = true := by
  have hform : isHexForm n = true := by
    by_contra hne
    exact hex8_not_ok n (by simpa using hne) hp h8 hok
  obtain ⟨ds, hds⟩ := HasPrefix_hash _ hp
  subst hds
  simp only [isHexForm, beq_self_eq_true, Bool.true_and, Bool.and_eq_true, List.all_eq_true]
    at hform
  have hu := utf8_hex_digits ds hform.2
  rw [utf8_hash_cons, List.drop_succ_cons, List.drop_zero, hu, List.length_map] at h8
  simp only [isHex8Form, beq_self_eq_true, Bool.true_and, Bool.and_eq_true, beq_iff_eq,
    List.all_eq_true]
  exact ⟨h8, hform.2⟩

theorem normalize_hex8 (T : Char → Char) (a b c d e f g k : Char) (hk : isHexDigit k = true) :
    normalize T ['#', a, b, c, d, e, f, g, k]
      = ['#', unicodeToLower T a, unicodeToLower T b, unicodeToLower T c,
          unicodeToLower T d, unicodeToLower T e, unicodeToLower T f,
          unicodeToLower T g, unicodeToLower T k] := by
  unfold normalize ToLower
  simp only [List.map_cons, List.map_nil, unicodeToLower_hash]
  apply TrimSpace_hash_cons
  intro c hc
  simp only [List.getLast?_cons_cons, List.getLast?_singleton, Option.some.injEq] at hc
  rw [← hc]
  exact (unicodeToLower_hex T k hk).2.2

/-! ## The claims of the specification -/

/-- C1: for every three hexadecimal digits `r`, `g`, `b`, `colorRGBA` gives `#rgb`
the colour it gives `#rrggbb`, and the alpha of both is 1. -/
theorem colorRGBA_short_hex (T : Char → Char) (r g b : Char)
    (hr : isHexDigit r = true) (hg : isHexDigit g = true) (hb : isHexDigit b = true) :
    colorRGBA T ['#', r, g, b] = colorRGBA T ['#', r, r, g, g, b, b]
      ∧ (colorRGBA T ['#', r, g, b]).2.2.2 = 1
      ∧ (colorRGBA T ['#', r, r, g, g, b, b]).2.2.2 = 1 := by
  obtain ⟨r1, _, _⟩ := unicodeToLower_hex T r hr
  obtain ⟨g1, _, _⟩ := unicodeToLower_hex T g hg
  obtain ⟨b1, _, _⟩ := unicodeToLower_hex T b hb
  rw [colorRGBA_of_hex3 T _ _ _ _ r1 g1 b1 (normalize_hex3 T r g b hb),
    colorRGBA_of_hex6 T _ _ _ _ _ _ _ r1 r1 g1 g1 b1 b1 (normalize_hex6 T r r g g b b hb)]
  exact ⟨rfl, rfl, rfl⟩

theorem colorRGBA_short_hex_witness :
    colorRGBA id "#0f0".toList = colorRGBA id "#00ff00".toList
      ∧ (colorRGBA id "#0f0".toList).2.2.2 = 1
      ∧ (colorRGBA id "#00ff00".toList).2.2.2 = 1 :=
  colorRGBA_short_hex id '0' 'f' '0' (by decide) (by decide) (by decide)

/-- C2: when the normalised text is `#` followed by exactly six hexadecimal
digits, `colorRGBA` returns `(R/255, G/255, B/255, 1)`, where `R`, `G`, `B` are
the byte values, at most 255, of the first, second and third pair of digits. -/
theorem colorRGBA_hex6 (T : Char → Char) (color : List Char) (a b c d e f : Char)
    (ha : isHexDigit a = true) (hb : isHexDigit b = true) (hc : isHexDigit c = true)
    (hd : isHexDigit d = true) (he : isHexDigit e = true) (hf : isHexDigit f = true)
    (h : normalize T color = ['#', a, b, c, d, e, f]) :
    colorRGBA T color = ((hexPairValue a b : ℚ) / 255, (hexPairValue c d : ℚ) / 255,
      (hexPairValue e f : ℚ) / 255, 1)
      ∧ hexPairValue a b ≤ 255 ∧ hexPairValue c d ≤ 255 ∧ hexPairValue e f ≤ 255 :=
  ⟨colorRGBA_of_hex6 T color a b c d e f ha hb hc hd he hf h,
    hexPairValue_le a b ha hb, hexPairValue_le c d hc hd, hexPairValue_le e f he hf⟩

theorem colorRGBA_hex6_witness : colorRGBA id "#ff0000".toList = (1, 0, 0, 1) := by
  rw [(colorRGBA_hex6 id "#ff0000".toList 'f' 'f' '0' '0' '0' '0' (by decide) (by decide)
    (by decide) (by decide) (by decide) (by decide) (by decide)).1]
  rw [show hexPairValue 'f' 'f' = 255 by decide, show hexPairValue '0' '0' = 0 by decide]
  norm_num

/-- C3: when the normalised text is `#` followed by exactly eight hexadecimal
digits, `colorRGBA` returns `(R/255, G/255, B/255, A/255)`, where `R`, `G`, `B`,
`A` are the byte values, at most 255, of the four pairs of digits in order. -/
theorem colorRGBA_hex8 (T : Char → Char) (color : List Char) (a b c d e f g k : Char)
    (ha : isHexDigit a = true) (hb : isHexDigit b = true) (hc : isHexDigit c = true)
    (hd : isHexDigit d = true) (he : isHexDigit e = true) (hf : isHexDigit f = true)
    (hg : isHexDigit g = true) (hk : isHexDigit k = true)
    (h : normalize T color = ['#', a, b, c, d, e, f, g, k]) :
    colorRGBA T color = ((hexPairValue a b : ℚ) / 255, (hexPairValue c d : ℚ) / 255,
      (hexPairValue e f : ℚ) / 255, (hexPairValue g k : ℚ) / 255)
      ∧ hexPairValue a b ≤ 255 ∧ hexPairValue c d ≤ 255 ∧ hexPairValue e f ≤ 255
      ∧ hexPairValue g k ≤ 255 :=
  ⟨colorRGBA_of_hex8 T color a b c d e f g k ha hb hc hd he hf hg hk h,
    hexPairValue_le a b ha hb, hexPairValue_le c d hc hd, hexPairValue_le e f he hf,
    hexPairValue_le g k hg hk⟩

theorem colorRGBA_hex8_witness : colorRGBA id "#0000ffcc".toList = (0, 0, 1, 204 / 255) := by
  rw [(colorRGBA_hex8 id "#0000ffcc".toList '0' '0' '0' '0' 'f' 'f' 'c' 'c' (by decide)
    (by decide) (by decide) (by decide) (by decide) (by decide) (by decide) (by decide)
    (by decide)).1]
  rw [show hexPairValue 'f' 'f' = 255 by decide, show hexPairValue '0' '0' = 0 by decide,
    show hexPairValue 'c' 'c' = 204 by decide]
  norm_num

/-- C4: `colorRGBA` is insensitive to case and to surrounding white space: if `t`
is `s` with the case of some ASCII letters changed, and `ws1`, `ws2` are white
space, then `colorRGBA` gives `ws1 ++ t ++ ws2` the colour it gives `s`.  The
case table is assumed to map white space to white space (no white-space rune
of Unicode has a case mapping). -/
theorem colorRGBA_case_space_insensitive (T : Char → Char)
    (hT : ∀ c, 0x7F < c.toNat → IsSpace c = true → IsSpace (T c) = true)
    (s t ws1 ws2 : List Char) (hst : caseChanged s t)
    (h1 : ∀ c ∈ ws1, IsSpace c = true) (h2 : ∀ c ∈ ws2, IsSpace c = true) :
    colorRGBA T (ws1 ++ t ++ ws2) = colorRGBA T s := by
  have e : normalize T (ws1 ++ t ++ ws2) = normalize T s := by
    unfold normalize
    rw [← ToLower_caseChanged T s t hst]
    unfold ToLower
    rw [List.map_append, List.map_append]
    apply TrimSpace_pad
    · intro c hc
      obtain ⟨w, hw, rfl⟩ := List.mem_map.1 hc
      exact unicodeToLower_space T hT w (h1 w hw)
    · intro c hc
      obtain ⟨w, hw, rfl⟩ := List.mem_map.1 hc
      exact unicodeToLower_space T hT w (h2 w hw)
  unfold colorRGBA
  rw [e]

theorem colorRGBA_case_space_insensitive_witness :
    caseChanged "RED".toList "red".toList
      ∧ colorRGBA id " red ".toList = colorRGBA id "RED".toList :=
  ⟨by unfold caseChanged; decide,
    colorRGBA_case_space_insensitive id (fun _ _ h => h) "RED".toList "red".toList
      " ".toList " ".toList (by unfold caseChanged; decide) (by decide) (by decide)⟩

/-- C5: `colorRGBA` is a total function, and when the normalised text is neither
`#` followed by exactly 3, 6 or 8 hexadecimal digits nor one of the four names
of the palette, it returns opaque black `(0, 0, 0, 1)`. -/
theorem colorRGBA_default (T : Char → Char) (color : List Char)
    (hhex : isHexForm (normalize T color) = false)
    (hname : normalize T color ∉ paletteNames) :
    colorRGBA T color = (0, 0, 0, 1) := by
  rw [colorRGBA_fallthrough T color hhex, namedColor_default _ hname]

theorem colorRGBA_default_witness :
    colorRGBA id "#zz0000".toList = (0, 0, 0, 1)
      ∧ colorRGBA id "not-a-color".toList = (0, 0, 0, 1) :=
  ⟨colorRGBA_default id "#zz0000".toList (by decide) (by decide),
    colorRGBA_default id "not-a-color".toList (by decide) (by decide)⟩

/-- C6: when the normalised text is one of the four names of the palette,
`colorRGBA` returns the value of the palette (white `(1,1,1,1)`, red
`(1,0,0,1)`, green `(0,1,0,1)`, blue `(0,0,1,1)`); every other normalised text
that does not start with `#` gives `(0, 0, 0, 1)`. -/
theorem colorRGBA_palette (T : Char → Char) (color : List Char) :
    (normalize T color = "white".toList → colorRGBA T color = (1, 1, 1, 1))
      ∧ (normalize T color = "red".toList → colorRGBA T color = (1, 0, 0, 1))
      ∧ (normalize T color = "green".toList → colorRGBA T color = (0, 1, 0, 1))
      ∧ (normalize T color = "blue".toList → colorRGBA T color = (0, 0, 1, 1))
      ∧ (normalize T color ∉ paletteNames → (normalize T color).head? ≠ some '#' →
          colorRGBA T color = (0, 0, 0, 1)) := by
  refine ⟨?_, ?_, ?_, ?_, ?_⟩
  · intro h
    rw [colorRGBA_fallthrough T color (by rw [h]; decide), h, namedColor_white]
  · intro h
    rw [colorRGBA_fallthrough T color (by rw [h]; decide), h, namedColor_red]
  · intro h
    rw [colorRGBA_fallthrough T color (by rw [h]; decide), h, namedColor_green]
  · intro h
    rw [colorRGBA_fallthrough T color (by rw [h]; decide), h, namedColor_blue]
  · intro hname hhead
    rw [colorRGBA_fallthrough T color (isHexForm_of_head _ hhead), namedColor_default _ hname]

theorem colorRGBA_palette_witness :
    colorRGBA id " White ".toList = (1, 1, 1, 1)
      ∧ colorRGBA id "red".toList = (1, 0, 0, 1)
      ∧ colorRGBA id "GREEN".toList = (0, 1, 0, 1)
      ∧ colorRGBA id "blue\n".toList = (0, 0, 1, 1)
      ∧ colorRGBA id "purple".toList = (0, 0, 0, 1) :=
  ⟨(colorRGBA_palette id " White ".toList).1 (by decide),
    (colorRGBA_palette id "red".toList).2.1 (by decide),
    (colorRGBA_palette id "GREEN".toList).2.2.1 (by decide),
    (colorRGBA_palette id "blue\n".toList).2.2.2.1 (by decide),
    (colorRGBA_palette id "purple".toList).2.2.2.2 (by decide) (by decide)⟩

/-- C7: for every input, each of the four channels that `colorRGBA` returns lies
in the closed interval from 0 to 1. -/
theorem colorRGBA_range (T : Char → Char) (color : List Char) :
    (0 ≤ (colorRGBA T color).1 ∧ (colorRGBA T color).1 ≤ 1)
      ∧ (0 ≤ (colorRGBA T color).2.1 ∧ (colorRGBA T color).2.1 ≤ 1)
      ∧ (0 ≤ (colorRGBA T color).2.2.1 ∧ (colorRGBA T color).2.2.1 ≤ 1)
      ∧ (0 ≤ (colorRGBA T color).2.2.2 ∧ (colorRGBA T color).2.2.2 ≤ 1) := by
  unfold colorRGBA
  simp only []
  split_ifs
  · dsimp only
    exact ⟨parseHexByte_range _, parseHexByte_range _, parseHexByte_range _,
      by norm_num, by norm_num⟩
  · exact namedColor_range _
  · dsimp only
    exact ⟨parseHexByte_range _, parseHexByte_range _, parseHexByte_range _,
      by norm_num, by norm_num⟩
  · exact namedColor_range _
  · dsimp only
    exact ⟨parseHexByte_range _, parseHexByte_range _, parseHexByte_range _,
      parseHexByte_range _⟩
  · exact namedColor_range _
  · exact namedColor_range _
  · exact namedColor_range _

/-- C8: `Fill` makes no backend call when `ctx` is null, or `width <= 0`, or
`height <= 0`. -/
theorem Fill_noop (T : Char → Char) (ctx : Nat) (width height : Float64) (color : List Char)
    (h : ctx = 0 ∨ width.le Float64.zero = true ∨ height.le Float64.zero = true) :
    Fill T ctx width height color = [] := by
  unfold Fill
  rw [if_pos h]

theorem Fill_noop_witness :
    Fill id 1 (Float64.finite 0) (Float64.finite 10) "white".toList = []
      ∧ Fill id 1 (Float64.finite 10) (Float64.finite (-1)) "white".toList = []
      ∧ Fill id 0 (Float64.finite 10) (Float64.finite 10) "white".toList = [] :=
  ⟨Fill_noop id 1 _ _ _ (Or.inr (Or.inl (by decide))),
    Fill_noop id 1 _ _ _ (Or.inr (Or.inr (by decide))),
    Fill_noop id 0 _ _ _ (Or.inl rfl)⟩

/-- C9: for a non-null `ctx`, `width > 0` and `height > 0`, `Fill` makes exactly
three backend calls, all on `ctx`, in this order: set the source to
`colorRGBA color`, the rectangle `(0, 0, width, height)`, fill. -/
theorem Fill_calls (T : Char → Char) (ctx : Nat) (width height : Float64) (color : List Char)
    (hctx : ctx ≠ 0) (hw : width.gt Float64.zero = true) (hh : height.gt Float64.zero = true) :
    Fill T ctx width height color =
      [CairoCall.setSourceRGBA ctx (colorRGBA T color).1 (colorRGBA T color).2.1
          (colorRGBA T color).2.2.1 (colorRGBA T color).2.2.2,
        CairoCall.rectangle ctx Float64.zero Float64.zero width height,
        CairoCall.fill ctx] := by
  unfold Fill
  rw [if_neg (guard_of_gt ctx width height hctx hw hh)]

theorem Fill_calls_witness :
    Fill id 1 (Float64.finite 10) (Float64.finite 20) "white".toList =
      [CairoCall.setSourceRGBA 1 1 1 1 1,
        CairoCall.rectangle 1 Float64.zero Float64.zero (Float64.finite 10) (Float64.finite 20),
        CairoCall.fill 1] := by
  rw [Fill_calls id 1 _ _ _ (by decide) (by decide) (by decide), colorRGBA_white_id]

/-- C10: `Rect` makes no backend call when `ctx` is null, or `w <= 0`, or
`h <= 0`; for a non-null `ctx`, `w > 0` and `h > 0` it makes exactly three
calls on `ctx`, in this order: set the source to `colorRGBA color`, the
rectangle `(x, y, w, h)`, fill. -/
theorem Rect_calls (T : Char → Char) (ctx : Nat) (x y w h : Float64) (color : List Char) :
    ((ctx = 0 ∨ w.le Float64.zero = true ∨ h.le Float64.zero = true) →
        Rect T ctx x y w h color = [])
      ∧ (ctx ≠ 0 → w.gt Float64.zero = true → h.gt Float64.zero = true →
        Rect T ctx x y w h color =
          [CairoCall.setSourceRGBA ctx (colorRGBA T color).1 (colorRGBA T color).2.1
              (colorRGBA T color).2.2.1 (colorRGBA T color).2.2.2,
            CairoCall.rectangle ctx x y w h,
            CairoCall.fill ctx]) := by
  constructor
  · intro hg
    unfold Rect
    rw [if_pos hg]
  · intro hctx hw hh
    unfold Rect
    rw [if_neg (guard_of_gt ctx w h hctx hw hh)]

theorem Rect_calls_witness :
    Rect id 0 (Float64.finite 1) (Float64.finite 2) (Float64.finite 3) (Float64.finite 4)
        "white".toList = []
      ∧ Rect id 1 (Float64.finite 1) (Float64.finite 2) (Float64.finite 3) (Float64.finite 0)
        "white".toList = []
      ∧ Rect id 1 (Float64.finite 1) (Float64.finite 2) (Float64.finite 3) (Float64.finite 4)
        "white".toList =
          [CairoCall.setSourceRGBA 1 1 1 1 1,
            CairoCall.rectangle 1 (Float64.finite 1) (Float64.finite 2) (Float64.finite 3)
              (Float64.finite 4),
            CairoCall.fill 1] := by
  refine ⟨(Rect_calls id 0 _ _ _ _ _).1 (Or.inl rfl),
    (Rect_calls id 1 _ _ _ _ _).1 (Or.inr (Or.inr (by decide))), ?_⟩
  rw [(Rect_calls id 1 _ _ _ _ _).2 (by decide) (by decide) (by decide), colorRGBA_white_id]

/-- C11: `Line` makes no backend call when `ctx` is null; for a non-null `ctx`
and any coordinates and colour it makes exactly five calls on `ctx`, in this
order: set the source to `colorRGBA color`, line width 1, move to `(x1, y1)`,
line to `(x2, y2)`, stroke. -/
theorem Line_calls (T : Char → Char) (ctx : Nat) (x1 y1 x2 y2 : Float64) (color : List Char) :
    (ctx = 0 → Line T ctx x1 y1 x2 y2 color = [])
      ∧ (ctx ≠ 0 → Line T ctx x1 y1 x2 y2 color =
          [CairoCall.setSourceRGBA ctx (colorRGBA T color).1 (colorRGBA T color).2.1
              (colorRGBA T color).2.2.1 (colorRGBA T color).2.2.2,
            CairoCall.setLineWidth ctx (Float64.finite 1),
            CairoCall.moveTo ctx x1 y1,
            CairoCall.lineTo ctx x2 y2,
            CairoCall.stroke ctx]) := by
  constructor
  · intro h
    unfold Line
    rw [if_pos h]
  · intro h
    unfold Line
    rw [if_neg h]

theorem Line_calls_witness :
    Line id 0 (Float64.finite 1) (Float64.finite 2) (Float64.finite 3) (Float64.finite 4)
        "white".toList = []
      ∧ Line id 1 Float64.nan (Float64.finite 2) (Float64.finite (-3)) Float64.posInf
        "white".toList =
          [CairoCall.setSourceRGBA 1 1 1 1 1,
            CairoCall.setLineWidth 1 (Float64.finite 1),
            CairoCall.moveTo 1 Float64.nan (Float64.finite 2),
            CairoCall.lineTo 1 (Float64.finite (-3)) Float64.posInf,
            CairoCall.stroke 1] := by
  refine ⟨(Line_calls id 0 _ _ _ _ _).1 rfl, ?_⟩
  rw [(Line_calls id 1 _ _ _ _ _).2 (by decide), colorRGBA_white_id]

/-- C12: `Text` makes no backend call when `ctx` is null; for a non-null `ctx`
and any position, text and colour it makes exactly five calls on `ctx`, in
this order: set the source to `colorRGBA color`, select the font face `Sans`
with slant 0 and weight 0, font size 13, move to `(x, y)`, show the text. -/
theorem Text_calls (T : Char → Char) (ctx : Nat) (x y : Float64) (value : List Nat)
    (color : List Char) :
    (ctx = 0 → Text T ctx x y value color = [])
      ∧ (ctx ≠ 0 → Text T ctx x y value color =
          [CairoCall.setSourceRGBA ctx (colorRGBA T color).1 (colorRGBA T color).2.1
              (colorRGBA T color).2.2.1 (colorRGBA T color).2.2.2,
            CairoCall.selectFontFace ctx (utf8 "Sans".toList) 0 0,
            CairoCall.setFontSize ctx (Float64.finite 13),
            CairoCall.moveTo ctx x y,
            CairoCall.showText ctx value]) := by
  constructor
  · intro h
    unfold Text
    rw [if_pos h]
  · intro h
    unfold Text
    rw [if_neg h]

theorem Text_calls_witness :
    Text id 0 (Float64.finite 1) (Float64.finite 2) (utf8 "hi".toList) "white".toList = []
      ∧ Text id 1 (Float64.finite 1) (Float64.finite 2) [] "white".toList =
          [CairoCall.setSourceRGBA 1 1 1 1 1,
            CairoCall.selectFontFace 1 (utf8 "Sans".toList) 0 0,
            CairoCall.setFontSize 1 (Float64.finite 13),
            CairoCall.moveTo 1 (Float64.finite 1) (Float64.finite 2),
            CairoCall.showText 1 []] := by
  refine ⟨(Text_calls id 0 _ _ _ _).1 rfl, ?_⟩
  rw [(Text_calls id 1 _ _ _ _).2 (by decide), colorRGBA_white_id]

/-- C19: for every `ctx`, size and colour, `Fill ctx width height color` makes
exactly the calls of `Rect ctx 0 0 width height color`. -/
theorem Fill_eq_Rect (T : Char → Char) (ctx : Nat) (width height : Float64)
    (color : List Char) :
    Fill T ctx width height color
      = Rect T ctx Float64.zero Float64.zero width height color := by
  unfold Fill Rect
  rfl

/-- C20: the alpha that `colorRGBA` returns is 1 unless the normalised text is
`#` followed by exactly eight hexadecimal digits; and for six hexadecimal
digits `h`, `colorRGBA` gives `#` `h` `ff` the colour it gives `#` `h`. -/
theorem colorRGBA_alpha (T : Char → Char) :
    (∀ color : List Char, isHex8Form (normalize T color) = false →
        (colorRGBA T color).2.2.2 = 1)
      ∧ (∀ a b c d e f : Char, isHexDigit a = true → isHexDigit b = true →
          isHexDigit c = true → isHexDigit d = true → isHexDigit e = true →
          isHexDigit f = true →
          colorRGBA T ['#', a, b, c, d, e, f, 'f', 'f'] = colorRGBA T ['#', a, b, c, d, e, f]) := by
  constructor
  · intro color h
    unfold colorRGBA
    simp only []
    split_ifs with hp h3 k3 h6 k6 h8 k8
    · rfl
    · exact namedColor_alpha _
    · rfl
    · exact namedColor_alpha _
    · rw [isHex8Form_of_parse _ hp h8 k8] at h
      exact absurd h (by simp)
    · exact namedColor_alpha _
    · exact namedColor_alpha _
    · exact namedColor_alpha _
  · intro a b c d e f ha hb hc hd he hf
    obtain ⟨a1, _, _⟩ := unicodeToLower_hex T a ha
    obtain ⟨b1, _, _⟩ := unicodeToLower_hex T b hb
    obtain ⟨c1, _, _⟩ := unicodeToLower_hex T c hc
    obtain ⟨d1, _, _⟩ := unicodeToLower_hex T d hd
    obtain ⟨e1, _, _⟩ := unicodeToLower_hex T e he
    obtain ⟨f1, _, _⟩ := unicodeToLower_hex T f hf
    have hF : isHexDigit 'f' = true := by decide
    obtain ⟨g1, _, _⟩ := unicodeToLower_hex T 'f' hF
    have hlow : unicodeToLower T 'f' = 'f' := by
      rw [unicodeToLower_ascii T 'f' (by decide)]; decide
    rw [colorRGBA_of_hex8 T _ _ _ _ _ _ _ _ _ a1 b1 c1 d1 e1 f1 g1 g1
        (normalize_hex8 T a b c d e f 'f' 'f' hF),
      colorRGBA_of_hex6 T _ _ _ _ _ _ _ a1 b1 c1 d1 e1 f1 (normalize_hex6 T a b c d e f hf),
      hlow, show hexPairValue 'f' 'f' = 255 by decide]
    norm_num

theorem colorRGBA_alpha_witness :
    (colorRGBA id "teal".toList).2.2.2 = 1
      ∧ colorRGBA id "#12abEFff".toList = colorRGBA id "#12abEF".toList :=
  ⟨(colorRGBA_alpha id).1 "teal".toList (by decide),
    (colorRGBA_alpha id).2 '1' '2' 'a' 'b' 'E' 'F' (by decide) (by decide) (by decide)
      (by decide) (by decide) (by decide)⟩

end Cairoops

namespace Testingops

/-! ## The claims of the specification on `testingops.go` -/

/-- C13: when the renderer or the node is null, `RenderAndSave` returns `false`
and makes no backend call. -/
theorem RenderAndSave_null (render : Nat → Nat → Nat → Nat) (save : Nat → List Nat → Bool)
    (rendererPtr nodePtr : Nat) (filename : List Nat)
    (h : rendererPtr = 0 ∨ nodePtr = 0) :
    RenderAndSave render save rendererPtr nodePtr filename = (false, []) := by
  unfold RenderAndSave
  rw [if_pos h]

theorem RenderAndSave_null_witness :
    RenderAndSave (fun _ _ _ => 9) (fun _ _ => true) 0 5 (Cairoops.utf8 "a.png".toList)
        = (false, [])
      ∧ RenderAndSave (fun _ _ _ => 9) (fun _ _ => true) 4 0 (Cairoops.utf8 "a.png".toList)
        = (false, []) :=
  ⟨RenderAndSave_null _ _ 0 5 _ (Or.inl rfl), RenderAndSave_null _ _ 4 0 _ (Or.inr rfl)⟩

/-- C14: with non-null handles and a non-null texture `t` from the
rasterisation, `RenderAndSave` makes the calls rasterise, save `t` to the file,
release `t`, in this order: the release is made exactly once, on `t` only,
after the save, and the result is the outcome of the save, true or false. -/
theorem RenderAndSave_release (render : Nat → Nat → Nat → Nat) (save : Nat → List Nat → Bool)
    (rendererPtr nodePtr : Nat) (filename : List Nat)
    (hr : rendererPtr ≠ 0) (hn : nodePtr ≠ 0) (ht : render rendererPtr nodePtr 0 ≠ 0) :
    (RenderAndSave render save rendererPtr nodePtr filename).2
        = [GtkCall.rendererRenderTexture rendererPtr nodePtr 0,
            GtkCall.textureSaveToPng (render rendererPtr nodePtr 0) filename,
            GtkCall.objectUnref (render rendererPtr nodePtr 0)]
      ∧ (RenderAndSave render save rendererPtr nodePtr filename).1
        = save (render rendererPtr nodePtr 0) filename
      ∧ (RenderAndSave render save rendererPtr nodePtr filename).2.count
          (GtkCall.objectUnref (render rendererPtr nodePtr 0)) = 1
      ∧ (∀ o, GtkCall.objectUnref o ∈ (RenderAndSave render save rendererPtr nodePtr filename).2
          → o = render rendererPtr nodePtr 0) := by
  have e : RenderAndSave render save rendererPtr nodePtr filename
      = (save (render rendererPtr nodePtr 0) filename,
          [GtkCall.rendererRenderTexture rendererPtr nodePtr 0,
            GtkCall.textureSaveToPng (render rendererPtr nodePtr 0) filename,
            GtkCall.objectUnref (render rendererPtr nodePtr 0)]) := by
    unfold RenderAndSave
    rw [if_neg (by simp [hr, hn])]
    simp only []
    rw [if_neg ht]
  rw [e]
  refine ⟨rfl, rfl, ?_, ?_⟩
  · simp [List.count_cons]
  · intro o ho
    simpa using ho

theorem RenderAndSave_release_witness :
    RenderAndSave (fun _ _ _ => 9) (fun _ _ => false) 4 5 (Cairoops.utf8 "a.png".toList)
      = (false, [GtkCall.rendererRenderTexture 4 5 0,
          GtkCall.textureSaveToPng 9 (Cairoops.utf8 "a.png".toList),
          GtkCall.objectUnref 9]) := by
  have h := RenderAndSave_release (fun _ _ _ => 9) (fun _ _ => false) 4 5
    (Cairoops.utf8 "a.png".toList) (by decide) (by decide) (by decide)
  exact Prod.ext h.2.1 h.1

/-- C15: `RenderAndSave` returns `true` exactly when both handles are non-null,
the rasterisation with a null viewport returns a non-null texture, and saving
that texture to the file returns `true`; in every other case it returns
`false`. -/
theorem RenderAndSave_true_iff (render : Nat → Nat → Nat → Nat) (save : Nat → List Nat → Bool)
    (rendererPtr nodePtr : Nat) (filename : List Nat) :
    ((RenderAndSave render save rendererPtr nodePtr filename).1 = true ↔
        (rendererPtr ≠ 0 ∧ nodePtr ≠ 0 ∧ render rendererPtr nodePtr 0 ≠ 0
          ∧ save (render rendererPtr nodePtr 0) filename = true))
      ∧ ((RenderAndSave render save rendererPtr nodePtr filename).1 = false ↔
        ¬ (rendererPtr ≠ 0 ∧ nodePtr ≠ 0 ∧ render rendererPtr nodePtr 0 ≠ 0
          ∧ save (render rendererPtr nodePtr 0) filename = true)) := by
  unfold RenderAndSave
  by_cases h : rendererPtr = 0 ∨ nodePtr = 0
  · rw [if_pos h]
    rcases h with h | h <;> simp [h]
  · rw [if_neg h]
    simp only []
    have h1 : rendererPtr ≠ 0 := fun e => h (Or.inl e)
    have h2 : nodePtr ≠ 0 := fun e => h (Or.inr e)
    by_cases ht : render rendererPtr nodePtr 0 = 0
    · rw [if_pos ht]
      simp [ht]
    · rw [if_neg ht]
      simp [h1, h2, ht]

theorem RenderAndSave_true_iff_witness :
    (RenderAndSave (fun _ _ _ => 9) (fun _ _ => true) 4 5 (Cairoops.utf8 "a.png".toList)).1
        = true
      ∧ (RenderAndSave (fun _ _ _ => 9) (fun _ _ => false) 4 5
          (Cairoops.utf8 "a.png".toList)).1 = false :=
  ⟨(RenderAndSave_true_iff _ _ 4 5 _).1.2 ⟨by decide, by decide, by decide, rfl⟩,
    (RenderAndSave_true_iff _ _ 4 5 _).2.2 (fun h => absurd h.2.2.2 (by decide))⟩

/-- C16: `EmitClicked` makes no call on a null widget, and on a non-null widget
exactly one call, emit-signal-by-name with the signal `clicked`. -/
theorem EmitClicked_calls (widgetPtr : Nat) :
    (widgetPtr = 0 → EmitClicked widgetPtr = [])
      ∧ (widgetPtr ≠ 0 → EmitClicked widgetPtr
          = [GtkCall.signalEmitByName widgetPtr (Cairoops.utf8 "clicked".toList)]) := by
  constructor
  · intro h
    unfold EmitClicked
    rw [if_pos h]
  · intro h
    unfold EmitClicked
    rw [if_neg h]

theorem EmitClicked_calls_witness :
    EmitClicked 0 = []
      ∧ EmitClicked 7 = [GtkCall.signalEmitByName 7 [99, 108, 105, 99, 107, 101, 100]] :=
  ⟨(EmitClicked_calls 0).1 rfl, (EmitClicked_calls 7).2 (by decide)⟩

/-- C17: with non-null handles and a rasterisation that returns no texture,
`RenderAndSave` returns `false` after exactly one backend call, the
rasterisation with viewport 0: no save and no release. -/
theorem RenderAndSave_no_texture (render : Nat → Nat → Nat → Nat)
    (save : Nat → List Nat → Bool) (rendererPtr nodePtr : Nat) (filename : List Nat)
    (hr : rendererPtr ≠ 0) (hn : nodePtr ≠ 0) (ht : render rendererPtr nodePtr 0 = 0) :
    RenderAndSave render save rendererPtr nodePtr filename
      = (false, [GtkCall.rendererRenderTexture rendererPtr nodePtr 0]) := by
  unfold RenderAndSave
  rw [if_neg (by simp [hr, hn])]
  simp only []
  rw [if_pos ht]

theorem RenderAndSave_no_texture_witness :
    RenderAndSave (fun _ _ _ => 0) (fun _ _ => true) 4 5 (Cairoops.utf8 "a.png".toList)
      = (false, [GtkCall.rendererRenderTexture 4 5 0]) :=
  RenderAndSave_no_texture _ _ 4 5 _ (by decide) (by decide) rfl

end Testingops
